import Mathlib

/-!
Shallow embedding of the `raytracing` Rust crate (src/vec3.rs, src/ray.rs,
src/interval.rs, src/hittable.rs, src/hittable_list.rs, src/sphere.rs,
src/material.rs, src/camera.rs, src/lib.rs) together with theorems settling
the specification claims about it.

Modelling conventions:
- `f64` values are modelled as real numbers (`ℝ`); floating rounding is
  abstracted away, as the specification states all numeric facts only up to
  floating tolerance.  The special value `f64::INFINITY`, which the code
  stores in `Interval` bounds, is modelled by making the interval bounds
  extended reals (`EReal`); all interval bounds the code ever constructs are
  either finite or `±∞`, which `EReal` represents exactly.
- Trait objects (`Box<dyn Hittable>`, `Arc<dyn Material>`) are modelled by
  their method dictionaries: a hittable is its `hit` function, a material is
  a member of the closed variant set found in src/material.rs.
- The process-wide random number generator is modelled by explicit oracle
  arguments (`Rand`, `SampleRand`): each draw the code performs reads one
  component of the oracle.  Theorems quantify over all oracle values.
- `&mut self` methods are modelled as functions returning the updated value.
-/

namespace Raytracing

noncomputable section

/-! ## Vector algebra (src/vec3.rs) -/

/-- Three-dimensional vector with real components (src/vec3.rs lines 28-32).
The source stores an array `e: [f64; 3]` with accessors `x()`, `y()`, `z()`;
we use the three named components directly. -/
structure Vec3 where
  x : ℝ
  y : ℝ
  z : ℝ

/-- Type alias for using Vec3 as a point in 3D space (src/vec3.rs line 14). -/
abbrev Point3 := Vec3

/-- Type alias for using Vec3 as an RGB color (src/vec3.rs line 16). -/
abbrev Color := Vec3

namespace Vec3

instance : Neg Vec3 := ⟨fun a => ⟨-a.x, -a.y, -a.z⟩⟩
instance : Add Vec3 := ⟨fun a b => ⟨a.x + b.x, a.y + b.y, a.z + b.z⟩⟩
instance : Sub Vec3 := ⟨fun a b => ⟨a.x - b.x, a.y - b.y, a.z - b.z⟩⟩
instance : Mul Vec3 := ⟨fun a b => ⟨a.x * b.x, a.y * b.y, a.z * b.z⟩⟩
instance : HMul Vec3 ℝ Vec3 := ⟨fun a t => ⟨a.x * t, a.y * t, a.z * t⟩⟩
instance : HMul ℝ Vec3 Vec3 := ⟨fun t a => ⟨a.x * t, a.y * t, a.z * t⟩⟩
instance : HDiv Vec3 ℝ Vec3 := ⟨fun a t => ⟨a.x / t, a.y / t, a.z / t⟩⟩

/-- Vec3::default() is the zero vector (src/vec3.rs lines 166-170). -/
instance : Zero Vec3 := ⟨⟨0, 0, 0⟩⟩

@[simp] theorem neg_def (a : Vec3) : -a = ⟨-a.x, -a.y, -a.z⟩ := rfl
@[simp] theorem add_def (a b : Vec3) : a + b = ⟨a.x + b.x, a.y + b.y, a.z + b.z⟩ := rfl
@[simp] theorem sub_def (a b : Vec3) : a - b = ⟨a.x - b.x, a.y - b.y, a.z - b.z⟩ := rfl
@[simp] theorem mul_def (a b : Vec3) : a * b = ⟨a.x * b.x, a.y * b.y, a.z * b.z⟩ := rfl
@[simp] theorem mul_real_def (a : Vec3) (t : ℝ) : a * t = ⟨a.x * t, a.y * t, a.z * t⟩ := rfl
@[simp] theorem real_mul_def (t : ℝ) (a : Vec3) : t * a = ⟨a.x * t, a.y * t, a.z * t⟩ := rfl
@[simp] theorem div_real_def (a : Vec3) (t : ℝ) : a / t = ⟨a.x / t, a.y / t, a.z / t⟩ := rfl
@[simp] theorem zero_def : (0 : Vec3) = ⟨0, 0, 0⟩ := rfl
@[simp] theorem zero_x : Vec3.x 0 = 0 := rfl
@[simp] theorem zero_y : Vec3.y 0 = 0 := rfl
@[simp] theorem zero_z : Vec3.z 0 = 0 := rfl

/-- Dot product of two vectors (src/vec3.rs lines 62-64). -/
def dot (a b : Vec3) : ℝ := a.x * b.x + a.y * b.y + a.z * b.z

/-- Cross product of two vectors (src/vec3.rs lines 67-73). -/
def cross (a b : Vec3) : Vec3 :=
  ⟨a.y * b.z - a.z * b.y, a.z * b.x - a.x * b.z, a.x * b.y - a.y * b.x⟩

/-- Squared length of a vector (src/vec3.rs lines 81-83). -/
def length_squared (a : Vec3) : ℝ := a.x * a.x + a.y * a.y + a.z * a.z

/-- Length of a vector (src/vec3.rs lines 161-163). -/
def length (a : Vec3) : ℝ := Real.sqrt a.length_squared

/-- Unit vector in the same direction (src/vec3.rs lines 76-78).  When the
length is zero the source divides by zero and produces NaN; the real-number
model yields the junk value `0` instead, so theorems about normalized
directions assume a nonzero input. -/
def unit_vector (a : Vec3) : Vec3 := a / a.length

/-- True iff every component is below 1e-8 in absolute value
(src/vec3.rs lines 88-91). -/
def near_zero (a : Vec3) : Prop :=
  |a.x| < 1e-8 ∧ |a.y| < 1e-8 ∧ |a.z| < 1e-8

instance (a : Vec3) : Decidable a.near_zero :=
  decidable_of_iff (|a.x| < 1e-8 ∧ |a.y| < 1e-8 ∧ |a.z| < 1e-8) Iff.rfl

/-- Reflection of `v` about the normal `n` (src/vec3.rs lines 142-144). -/
def reflect (v n : Vec3) : Vec3 := v - (2 * v.dot n) * n

/-- Refraction by Snell's law (src/vec3.rs lines 153-158). -/
def refract (uv n : Vec3) (etai_over_etat : ℝ) : Vec3 :=
  let cos_theta := min (-(uv.dot n)) 1
  let r_out_perp := etai_over_etat * (uv + cos_theta * n)
  let r_out_parallel := (-(Real.sqrt |1 - r_out_perp.length_squared|)) * n
  r_out_perp + r_out_parallel

end Vec3

/-! ## Rays (src/ray.rs) -/

/-- A ray: origin plus direction (src/ray.rs lines 20-25). -/
structure Ray where
  origin : Point3
  direction : Vec3

/-- Ray::default() has zero origin and direction (derived Default). -/
instance : Inhabited Ray := ⟨⟨0, 0⟩⟩

/-- The point at parameter `t` along the ray (src/ray.rs lines 47-49). -/
def Ray.at (r : Ray) (t : ℝ) : Point3 := r.origin + r.direction * t

/-! ## Intervals (src/interval.rs)

The Rust `Interval` stores two `f64` bounds and the code populates them both
with finite values (color clamping) and with `±f64::INFINITY` (ray parameter
ranges).  We model the single Rust type as a type polymorphic in its bound
type and instantiate it at `ℝ` where the code uses finite bounds and at
`EReal` where it relies on infinities. -/

/-- A closed interval given by its two bounds (src/interval.rs lines 14-19). -/
structure Interval (α : Type) where
  min : α
  max : α

namespace Interval

/-- Width of the interval (src/interval.rs lines 38-40). -/
def size {α : Type} [Sub α] (i : Interval α) : α := i.max - i.min

/-- Inclusive containment (src/interval.rs lines 51-53). -/
def isIn {α : Type} [LE α] (i : Interval α) (x : α) : Prop :=
  i.min ≤ x ∧ x ≤ i.max

/-- Strict containment: `min < x && x < max` (src/interval.rs lines 64-66). -/
def surrounds {α : Type} [LT α] (i : Interval α) (x : α) : Prop :=
  i.min < x ∧ x < i.max

instance {α : Type} [LT α] [DecidableEq α] [DecidableRel (α := α) (· < ·)]
    (i : Interval α) (x : α) : Decidable (i.surrounds x) :=
  decidable_of_iff (i.min < x ∧ x < i.max) Iff.rfl

/-- Clamp a value to the interval (src/interval.rs lines 77-87). -/
def clamp {α : Type} [LinearOrder α] (i : Interval α) (x : α) : α :=
  if x < i.min then i.min
  else if x > i.max then i.max
  else x

/-- The empty interval `{+inf, -inf}` (src/interval.rs lines 93-98). -/
def emptyI : Interval EReal := ⟨⊤, ⊥⟩

/-- The universe interval `{-inf, +inf}` (src/interval.rs lines 104-109). -/
def universeI : Interval EReal := ⟨⊥, ⊤⟩

end Interval

/-! ## Materials (src/material.rs)

The random draws a `scatter` implementation performs
(`Vec3::random_unit_vector()` for Lambertian and Metal, `random_double()`
for Dielectric) are modelled by an oracle record passed to `scatter`; the
rejection-sampling loops inside the generators are abstracted into the
oracle value itself. -/

/-- Oracle for the random draws of a single `scatter` call. -/
structure Rand where
  unitVec : Vec3
  double : ℝ

/-- Diffuse material (src/material.rs lines 47-50). -/
structure Lambertian where
  albedo : Color

/-- Reflective material with fuzz (src/material.rs lines 92-97). -/
structure Metal where
  albedo : Color
  fuzz : ℝ

/-- Metal::new stores `if f < 1.0 { f } else { 1.0 }` as the fuzz
(src/material.rs lines 106-111). -/
def Metal.new (albedo : Color) (f : ℝ) : Metal :=
  ⟨albedo, if f < 1 then f else 1⟩

/-- Transparent material (src/material.rs lines 138-141). -/
structure Dielectric where
  refraction_index : ℝ

/-- Schlick reflectance approximation (src/material.rs lines 163-168). -/
def Dielectric.reflectance (cosine refraction_index : ℝ) : ℝ :=
  let r0 := (1 - refraction_index) / (1 + refraction_index)
  let r0sq := r0 * r0
  r0sq + (1 - r0sq) * (1 - cosine) ^ (5 : ℕ)

/-- The closed set of material implementations of the `Material` trait
found in src/material.rs, as a sum type. -/
inductive Material where
  | lambertian : Lambertian → Material
  | metal : Metal → Material
  | dielectric : Dielectric → Material

/-! ## Hit records (src/hittable.rs) -/

/-- Record of a ray-object intersection (src/hittable.rs lines 28-39). -/
structure HitRecord where
  p : Point3
  normal : Vec3
  mat : Option Material
  t : ℝ
  front_face : Bool

/-- Sets the record normal so that it opposes the incoming ray
(src/hittable.rs lines 71-80); the `&mut self` method is modelled as
returning the updated record. -/
def HitRecord.set_face_normal (rec : HitRecord) (r : Ray) (outward_normal : Vec3) :
    HitRecord :=
  let front_face := decide (r.direction.dot outward_normal < 0)
  { rec with
    front_face := front_face
    normal := match front_face with
      | true => outward_normal
      | false => -outward_normal }

/-- Material::scatter (src/material.rs lines 69-85, 119-131, 178-202).  The
Rust signature writes the attenuation and scattered ray through `&mut`
out-parameters and returns a `bool`; returning `true` together with the
written pair is modelled as `some (attenuation, scattered)`, returning
`false` (absorption) as `none`. -/
def Material.scatter (m : Material) (rnd : Rand) (r_in : Ray) (rec : HitRecord) :
    Option (Color × Ray) :=
  match m with
  | .lambertian mat =>
      let sd := rec.normal + rnd.unitVec
      let scatter_direction := if sd.near_zero then rec.normal else sd
      some (mat.albedo, ⟨rec.p, scatter_direction⟩)
  | .metal mat =>
      let reflected := Vec3.reflect r_in.direction.unit_vector rec.normal
      let scattered : Ray := ⟨rec.p, reflected + mat.fuzz * rnd.unitVec⟩
      if scattered.direction.dot rec.normal > 0 then some (mat.albedo, scattered)
      else none
  | .dielectric mat =>
      let ri := if rec.front_face then 1 / mat.refraction_index
                else mat.refraction_index
      let unit_direction := r_in.direction.unit_vector
      let cos_theta := min (-(unit_direction.dot rec.normal)) 1
      let sin_theta := Real.sqrt (1 - cos_theta * cos_theta)
      let cannot_refract := ri * sin_theta > 1
      let direction :=
        if cannot_refract ∨ Dielectric.reflectance cos_theta ri > rnd.double
        then Vec3.reflect unit_direction rec.normal
        else Vec3.refract unit_direction rec.normal ri
      some (⟨1, 1, 1⟩, ⟨rec.p, direction⟩)

/-! ## Spheres (src/sphere.rs) -/

/-- A sphere: center, radius and material (src/sphere.rs lines 23-30). -/
structure Sphere where
  center : Point3
  radius : ℝ
  mat : Material

/-- The quadratic half-form coefficient `a = |direction|^2`
(src/sphere.rs line 88). -/
def Sphere.aCoef (_s : Sphere) (r : Ray) : ℝ := r.direction.length_squared

/-- The quadratic half-form coefficient `h = direction . (center - origin)`
(src/sphere.rs lines 87, 89). -/
def Sphere.hCoef (s : Sphere) (r : Ray) : ℝ := r.direction.dot (s.center - r.origin)

/-- The quadratic half-form coefficient `c = |oc|^2 - radius^2`
(src/sphere.rs line 90). -/
def Sphere.cCoef (s : Sphere) (r : Ray) : ℝ :=
  (s.center - r.origin).length_squared - s.radius * s.radius

/-- The discriminant `h*h - a*c` of the ray-sphere quadratic
(src/sphere.rs line 92). -/
def Sphere.disc (s : Sphere) (r : Ray) : ℝ :=
  s.hCoef r * s.hCoef r - s.aCoef r * s.cCoef r

/-- The smaller candidate root `(h - sqrt(disc)) / a` (src/sphere.rs line 100). -/
def Sphere.root1 (s : Sphere) (r : Ray) : ℝ :=
  (s.hCoef r - Real.sqrt (s.disc r)) / s.aCoef r

/-- The larger candidate root `(h + sqrt(disc)) / a` (src/sphere.rs line 102). -/
def Sphere.root2 (s : Sphere) (r : Ray) : ℝ :=
  (s.hCoef r + Real.sqrt (s.disc r)) / s.aCoef r

/-- The hit record the sphere intersection builds for an accepted root
(src/sphere.rs lines 108-117): the record is created with the default normal
and `front_face`, then `set_face_normal` is applied with the outward normal
`(p - center) / radius`. -/
def Sphere.mkHitRecord (s : Sphere) (r : Ray) (root : ℝ) : HitRecord :=
  let hit_record : HitRecord :=
    { t := root, p := r.at root, normal := 0, front_face := false,
      mat := some s.mat }
  hit_record.set_face_normal r ((r.at root - s.center) / s.radius)

/-- Sphere::hit (src/sphere.rs lines 86-120): miss when the discriminant is
negative, otherwise accept the smaller root if it lies strictly inside the
interval, else the larger root, else miss. -/
def Sphere.hit (s : Sphere) (r : Ray) (ray_t : Interval EReal) : Option HitRecord :=
  if s.disc r < 0 then none
  else if ray_t.surrounds ((s.root1 r : ℝ) : EReal) then
    some (s.mkHitRecord r (s.root1 r))
  else if ray_t.surrounds ((s.root2 r : ℝ) : EReal) then
    some (s.mkHitRecord r (s.root2 r))
  else none

/-! ## Hittable lists (src/hittable_list.rs) -/

/-- A `Box<dyn Hittable>` is modelled by its `hit` method. -/
abbrev HitFun := Ray → Interval EReal → Option HitRecord

/-- A collection of hittable objects (src/hittable_list.rs lines 19-22). -/
structure HittableList where
  objects : List HitFun

/-- One iteration of the HittableList::hit scan (src/hittable_list.rs lines
75-80): query the member on the interval narrowed to the best `t` found so
far; on a hit both the narrowed upper bound and the stored record are
replaced. -/
def hitStep (r : Ray) (tmin : EReal) (acc : EReal × Option HitRecord)
    (obj : HitFun) : EReal × Option HitRecord :=
  match obj r ⟨tmin, acc.1⟩ with
  | some rec => (((rec.t : ℝ) : EReal), some rec)
  | none => acc

/-- HittableList::hit (src/hittable_list.rs lines 72-83): linear scan over
the members starting from `closest_so_far = ray_t.max` and no record. -/
def HittableList.hit (l : HittableList) (r : Ray) (ray_t : Interval EReal) :
    Option HitRecord :=
  (l.objects.foldl (hitStep r ray_t.min) (ray_t.max, none)).2

/-! ## Output encoding (src/lib.rs) -/

/-- Gamma-2 transform of one linear color component (src/lib.rs lines 41-46):
the square root for positive inputs, exactly `0` otherwise. -/
def linear_to_gamma (linear_component : ℝ) : ℝ :=
  if linear_component > 0 then Real.sqrt linear_component else 0

/-- The byte value `(256.0 * intensity.clamp(x)) as i32` computed by
write_color (src/lib.rs lines 77-80).  The `as i32` cast truncates toward
zero; the clamped operand is always nonnegative, so the cast is the floor. -/
def colorByte (x : ℝ) : ℤ :=
  let intensity : Interval ℝ := ⟨0.000, 0.999⟩
  ⌊256 * intensity.clamp (linear_to_gamma x)⌋

/-- write_color (src/lib.rs lines 61-85): gamma-correct, clamp, quantize each
component and emit the three integers space-separated, newline-terminated.
The bytes written to the output stream are modelled as the returned string. -/
def write_color (pixel_color : Color) : String :=
  toString (colorByte pixel_color.x) ++ " " ++ toString (colorByte pixel_color.y)
    ++ " " ++ toString (colorByte pixel_color.z) ++ "\n"

/-! ## Camera (src/camera.rs) -/

/-- Converts degrees to radians (src/camera.rs lines 375-377).  The source
multiplies by the `f32` constant `std::f32::consts::PI` cast to `f64`; the
rounded constant is abstracted to the exact `π`. -/
def degrees_to_radians (vfov : ℝ) : ℝ := vfov * Real.pi / 180

/-- Oracle for the random draws of one pixel sample: the two jitter draws of
the render loop (src/camera.rs lines 203-204), the two `sample_square` draws
(line 351), the accepted `random_in_unit_disk` point (line 361), and one
`Rand` per path-tracing bounce. -/
structure SampleRand where
  jitterU : ℝ
  jitterV : ℝ
  sq1 : ℝ
  sq2 : ℝ
  disk : Vec3
  path : ℕ → Rand

/-- Camera state (src/camera.rs lines 30-74): the public configuration
fields followed by the derived fields computed by `initialize`. -/
structure Camera where
  aspect_ratio : ℝ
  image_width : ℕ
  samples_per_pixel : ℕ
  max_depth : ℕ
  vfov : ℝ
  lookfrom : Point3
  lookat : Point3
  vup : Vec3
  defocus_angle : ℝ
  focus_dist : ℝ
  image_height : ℕ
  pixel_samples_scale : ℝ
  center : Point3
  pixel00_loc : Point3
  pixel_delta_u : Vec3
  pixel_delta_v : Vec3
  u : Vec3
  v : Vec3
  w : Vec3
  defocus_disk_u : Vec3
  defocus_disk_v : Vec3

/-- Camera::default (src/camera.rs lines 76-103). -/
def Camera.default : Camera :=
  { aspect_ratio := 1
    image_width := 100
    samples_per_pixel := 10
    max_depth := 10
    vfov := 90
    lookfrom := 0
    lookat := ⟨0, 0, -1⟩
    vup := ⟨0, 1, 0⟩
    image_height := 100
    center := 0
    pixel00_loc := 0
    pixel_delta_u := 0
    pixel_delta_v := 0
    pixel_samples_scale := 0
    u := 0
    v := 0
    w := 0
    defocus_angle := 0
    focus_dist := 10
    defocus_disk_u := 0
    defocus_disk_v := 0 }

/-- Camera::initialize (src/camera.rs lines 228-270): recompute every derived
field from the configuration.  `candidate_image_height as u32` is the
saturating float-to-integer cast, modelled as `⌊·⌋.toNat`. -/
def Camera.initializeDerived (cam : Camera) : Camera :=
  let candidate_image_height : ℝ := (cam.image_width : ℝ) / cam.aspect_ratio
  let image_height : ℕ :=
    if candidate_image_height < 1 then 1 else ⌊candidate_image_height⌋.toNat
  let pixel_samples_scale : ℝ := 1 / (cam.samples_per_pixel : ℝ)
  let center := cam.lookfrom
  let theta := degrees_to_radians cam.vfov
  let h := Real.tan (theta / 2)
  let viewport_height := 2 * h * cam.focus_dist
  let viewport_width := viewport_height * ((cam.image_width : ℝ) / (image_height : ℝ))
  let w := (cam.lookfrom - cam.lookat).unit_vector
  let u := (cam.vup.cross w).unit_vector
  let v := w.cross u
  let viewport_u := viewport_width * u
  let viewport_v := viewport_height * v
  let pixel_delta_u := viewport_u / (cam.image_width : ℝ)
  let pixel_delta_v := viewport_v / (image_height : ℝ)
  let viewport_upper_left :=
    center - (cam.focus_dist * w) - viewport_u / (2 : ℝ) - viewport_v / (2 : ℝ)
  let pixel00_loc := viewport_upper_left + (pixel_delta_u + pixel_delta_v) * (0.5 : ℝ)
  let defocus_radius :=
    cam.focus_dist * Real.tan (degrees_to_radians (cam.defocus_angle / 2))
  { cam with
    image_height := image_height
    pixel_samples_scale := pixel_samples_scale
    center := center
    pixel00_loc := pixel00_loc
    pixel_delta_u := pixel_delta_u
    pixel_delta_v := pixel_delta_v
    u := u
    v := v
    w := w
    defocus_disk_u := u * defocus_radius
    defocus_disk_v := v * defocus_radius }

/-- Camera::sample_square (src/camera.rs lines 350-352): a random offset in
the `[-0.5, 0.5]` square, the two uniform draws read from the oracle. -/
def Camera.sample_square (sr : SampleRand) : Vec3 :=
  ⟨sr.sq1 - 0.5, sr.sq2 - 0.5, 0⟩

/-- Camera::defocus_disk_sample (src/camera.rs lines 359-363); the accepted
rejection-sampled disk point is read from the oracle. -/
def Camera.defocus_disk_sample (c : Camera) (sr : SampleRand) : Point3 :=
  let p := sr.disk
  c.center + p.x * c.defocus_disk_u + p.y * c.defocus_disk_v

/-- Camera::get_ray (src/camera.rs lines 285-300). -/
def Camera.get_ray (c : Camera) (i j : ℕ) (sr : SampleRand) : Ray :=
  let offset := Camera.sample_square sr
  let pixel_sample := c.pixel00_loc
    + ((i : ℝ) + offset.x) * c.pixel_delta_u
    + ((j : ℝ) + offset.y) * c.pixel_delta_v
  let ray_origin := if c.defocus_angle ≤ 0 then c.center
                    else c.defocus_disk_sample sr
  let ray_direction := pixel_sample - ray_origin
  ⟨ray_origin, ray_direction⟩

/-- Camera::ray_color (src/camera.rs lines 317-343): recursive path color.
The hittable `world` is its `hit` method; `rtape` supplies the scatter
randomness of each bounce (level `d+1` uses `rtape d`).  The source unwraps
`rec.mat` and would panic on a record without a material; no record the
crate constructs lacks one, and the model maps that unreachable branch to
black. -/
def Camera.rayColor (world : HitFun) (rtape : ℕ → Rand) (r : Ray) : ℕ → Color
  | 0 => 0
  | d + 1 =>
    match world r ⟨((0.001 : ℝ) : EReal), ⊤⟩ with
    | some rec =>
      match rec.mat with
      | some m =>
        match m.scatter (rtape d) r rec with
        | some (attenuation, scattered) =>
            attenuation * Camera.rayColor world rtape scattered d
        | none => 0
      | none => 0
    | none =>
      let unit_direction := r.direction.unit_vector
      let a := (unit_direction.y + 1) * 0.5
      (1 - a) * (⟨1, 1, 1⟩ : Color) + a * (⟨0.5, 0.7, 1⟩ : Color)

/-- The sample accumulation for one pixel (src/camera.rs lines 201-208):
`samples_per_pixel` path evaluations of jittered rays, summed.  The jittered
`u`, `v` are truncated back to `u32` before `get_ray` (line 205), modelled by
the saturating cast `⌊·⌋.toNat`. -/
def Camera.pixelColor (c : Camera) (world : HitFun)
    (tape : ℕ → ℕ → ℕ → SampleRand) (j i : ℕ) : Color :=
  (List.range c.samples_per_pixel).foldl
    (fun pixel_color s =>
      let sr := tape j i s
      let u : ℝ := (i : ℝ) + sr.jitterU / ((c.image_width - 1 : ℕ) : ℝ)
      let v : ℝ := (j : ℝ) + sr.jitterV / ((c.image_height - 1 : ℕ) : ℝ)
      let r := c.get_ray ⌊u⌋.toNat ⌊v⌋.toNat sr
      pixel_color + Camera.rayColor world sr.path r c.max_depth)
    0

/-- The header `println!("P3\n {0} {1} \n255", width, height)` emits
(src/camera.rs line 194), including the trailing newline of `println!`. -/
def ppmHeaderLine (width height : ℕ) : String :=
  "P3\n " ++ toString width ++ " " ++ toString height ++ " \n255\n"

/-- The pixel lines written after the header (src/camera.rs lines 196-216):
rows are traversed as `for j in (0..image_height).rev()`, each row's pixel
colors are computed for `i` ascending and then written in that order via
`write_color(pixel_samples_scale * pixel_color)`.  The per-scanline progress
messages go to stderr, not to the image stream. -/
def Camera.renderRows (c : Camera) (world : HitFun)
    (tape : ℕ → ℕ → ℕ → SampleRand) : String :=
  (List.range c.image_height).reverse.foldl
    (fun out j =>
      let pixel_colors := (List.range c.image_width).map
        (fun i => c.pixelColor world tape j i)
      pixel_colors.foldl
        (fun out2 pixel_color =>
          out2 ++ write_color (c.pixel_samples_scale * pixel_color))
        out)
    ""

/-- Camera::render (src/camera.rs lines 192-218): initialize the derived
state, print the PPM header, then stream the pixel lines.  The bytes written
to stdout are modelled as the returned string. -/
def Camera.render (cam : Camera) (world : HitFun)
    (tape : ℕ → ℕ → ℕ → SampleRand) : String :=
  let c := cam.initializeDerived
  ppmHeaderLine c.image_width c.image_height ++ c.renderRows world tape

/-! ## Helper lemmas -/

theorem Vec3.dot_neg_right (a b : Vec3) : a.dot (-b) = -(a.dot b) := by
  simp [Vec3.dot]
  ring

@[simp] theorem Interval.surrounds_def {α : Type} [LT α] (i : Interval α) (x : α) :
    i.surrounds x ↔ i.min < x ∧ x < i.max := Iff.rfl

/-! ## A model of correct hittables, for the aggregate-scan claims

`HittableList` holds arbitrary `dyn Hittable` trait objects.  To state what
the scan computes we pair each member's `hit` method with the set of
parametric distances at which the member geometrically intersects a ray,
and require the method to be a correct nearest-hit query for that set, which
is exactly the `Hittable` contract of the specification (section 4.2). -/

/-- A trait object together with its mathematical hit set. -/
abbrev HittableModel := HitFun × (Ray → Set ℝ)

/-- The `Hittable` contract: on every query interval the method returns a
record whose `t` is a strictly-inside member of the hit set, minimal among
the strictly-inside members, and it returns `none` only when the hit set
has no strictly-inside member. -/
def ProperHit (hf : HitFun) (S : Ray → Set ℝ) : Prop :=
  ∀ r I,
    (∀ rec, hf r I = some rec → rec.t ∈ S r ∧ I.surrounds ((rec.t : ℝ) : EReal) ∧
      ∀ u ∈ S r, I.surrounds ((u : ℝ) : EReal) → rec.t ≤ u) ∧
    (hf r I = none → ∀ u ∈ S r, ¬ I.surrounds ((u : ℝ) : EReal))

/-- Invariant of the HittableList::hit scan after processing the members
`ps`: either no record is stored, `closest_so_far` is still `ray_t.max` and
no processed member hit strictly inside the query interval, or the stored
record's `t` is strictly inside, equals `closest_so_far`, belongs to some
processed member and is minimal among all processed members' strictly-inside
hits. -/
def ScanInv (r : Ray) (I : Interval EReal) (ps : List HittableModel)
    (acc : EReal × Option HitRecord) : Prop :=
  (acc = (I.max, none) ∧
    ∀ p ∈ ps, ∀ u ∈ p.2 r, ¬ I.surrounds ((u : ℝ) : EReal)) ∨
  (∃ rec, acc = (((rec.t : ℝ) : EReal), some rec) ∧
    I.surrounds ((rec.t : ℝ) : EReal) ∧
    (∃ p ∈ ps, rec.t ∈ p.2 r) ∧
    ∀ p ∈ ps, ∀ u ∈ p.2 r, I.surrounds ((u : ℝ) : EReal) → rec.t ≤ u)

theorem scanStep (r : Ray) (I : Interval EReal) (ps : List HittableModel)
    (p : HittableModel) (acc : EReal × Option HitRecord)
    (hp : ProperHit p.1 p.2) (hinv : ScanInv r I ps acc) :
    ScanInv r I (ps ++ [p]) (hitStep r I.min acc p.1) := by
  obtain ⟨hsome, hnone⟩ := hp r ⟨I.min, acc.1⟩
  rcases hcall : p.1 r ⟨I.min, acc.1⟩ with _ | rec'
  · -- the member reports no hit strictly inside (I.min, closest_so_far)
    have hstep : hitStep r I.min acc p.1 = acc := by
      simp [hitStep, hcall]
    rw [hstep]
    have hmiss := hnone hcall
    rcases hinv with ⟨hacc, hall⟩ | ⟨rec, hacc, hsur, hmem, hmin⟩
    · left
      refine ⟨hacc, ?_⟩
      intro q hq u hu
      rcases List.mem_append.mp hq with hq | hq
      · exact hall q hq u hu
      · have hqp : q = p := by simpa using hq
        subst hqp
        have h1 := hmiss u hu
        have hacc1 : acc.1 = I.max := by rw [hacc]
        rw [Interval.surrounds_def] at h1 ⊢
        rwa [hacc1] at h1
    · right
      refine ⟨rec, hacc, hsur, ?_, ?_⟩
      · obtain ⟨q, hq, hqt⟩ := hmem
        exact ⟨q, List.mem_append.mpr (Or.inl hq), hqt⟩
      · intro q hq u hu husur
        rcases List.mem_append.mp hq with hq | hq
        · exact hmin q hq u hu husur
        · have hqp : q = p := by simpa using hq
          subst hqp
          have h1 := hmiss u hu
          have hacc1 : acc.1 = ((rec.t : ℝ) : EReal) := by rw [hacc]
          rw [Interval.surrounds_def] at h1
          rw [hacc1] at h1
          have hnotlt : ¬ ((u : ℝ) : EReal) < ((rec.t : ℝ) : EReal) := by
            intro hlt
            exact h1 ⟨(Interval.surrounds_def I _ |>.mp husur).1, hlt⟩
          exact EReal.coe_le_coe_iff.mp (le_of_not_lt hnotlt)
  · -- the member reports a hit rec' strictly inside (I.min, closest_so_far)
    have hstep : hitStep r I.min acc p.1 = (((rec'.t : ℝ) : EReal), some rec') := by
      simp [hitStep, hcall]
    rw [hstep]
    obtain ⟨hmem', hsur', hmincall⟩ := hsome rec' hcall
    rw [Interval.surrounds_def] at hsur'
    rcases hinv with ⟨hacc, hall⟩ | ⟨rec, hacc, hsur, hmem, hmin⟩
    · -- no previous record: closest_so_far was I.max
      have hacc1 : acc.1 = I.max := by rw [hacc]
      rw [hacc1] at hsur' hmincall
      right
      refine ⟨rec', rfl, by rw [Interval.surrounds_def]; exact hsur', ?_, ?_⟩
      · exact ⟨p, List.mem_append.mpr (Or.inr (by simp)), hmem'⟩
      · intro q hq u hu husur
        rcases List.mem_append.mp hq with hq | hq
        · exact absurd husur (hall q hq u hu)
        · have hqp : q = p := by simpa using hq
          subst hqp
          exact hmincall u hu (by rw [Interval.surrounds_def] at husur ⊢; exact husur)
    · -- a previous record rec: closest_so_far was rec.t
      have hacc1 : acc.1 = ((rec.t : ℝ) : EReal) := by rw [hacc]
      rw [hacc1] at hsur' hmincall
      rw [Interval.surrounds_def] at hsur
      have hlt : rec'.t < rec.t := EReal.coe_lt_coe_iff.mp hsur'.2
      right
      refine ⟨rec', rfl, ?_, ?_, ?_⟩
      · rw [Interval.surrounds_def]
        exact ⟨hsur'.1, lt_trans hsur'.2 hsur.2⟩
      · exact ⟨p, List.mem_append.mpr (Or.inr (by simp)), hmem'⟩
      · intro q hq u hu husur
        rcases List.mem_append.mp hq with hq | hq
        · exact le_trans (le_of_lt hlt) (hmin q hq u hu husur)
        · have hqp : q = p := by simpa using hq
          subst hqp
          by_cases hcase : ((u : ℝ) : EReal) < ((rec.t : ℝ) : EReal)
          · exact hmincall u hu
              ⟨(Interval.surrounds_def I _ |>.mp husur).1, hcase⟩
          · have : rec.t ≤ u := EReal.coe_le_coe_iff.mp (le_of_not_lt hcase)
            exact le_trans (le_of_lt hlt) this

theorem scanGo (r : Ray) (I : Interval EReal) :
    ∀ (l ps : List HittableModel) (acc : EReal × Option HitRecord),
      (∀ p ∈ l, ProperHit p.1 p.2) → ScanInv r I ps acc →
      ScanInv r I (ps ++ l) ((l.map Prod.fst).foldl (hitStep r I.min) acc) := by
  intro l
  induction l with
  | nil =>
    intro ps acc _ hinv
    simpa using hinv
  | cons p l ih =>
    intro ps acc hl hinv
    have h1 : ScanInv r I (ps ++ [p]) (hitStep r I.min acc p.1) :=
      scanStep r I ps p acc (hl p (by simp)) hinv
    have h2 := ih (ps ++ [p]) (hitStep r I.min acc p.1)
      (fun q hq => hl q (by simp [hq])) h1
    have hre : (ps ++ [p]) ++ l = ps ++ p :: l := by simp
    rw [hre] at h2
    simpa using h2

/-! ## Claim C1: HittableList::hit returns the globally nearest hit -/

/-- C1: for every ray, interval and list of correct members,
`HittableList::hit` returns a record whose `t` is strictly inside the
interval, is a hit of some member, and is least among all members' hits
strictly inside the interval — a characterization independent of the
insertion order — and it returns `none` exactly when no member hits
strictly inside the interval (in particular for the empty list). -/
theorem hittable_list_hit_nearest (ps : List HittableModel) (r : Ray)
    (I : Interval EReal) (hp : ∀ p ∈ ps, ProperHit p.1 p.2) :
    (∀ rec, HittableList.hit ⟨ps.map Prod.fst⟩ r I = some rec →
      I.surrounds ((rec.t : ℝ) : EReal) ∧ (∃ p ∈ ps, rec.t ∈ p.2 r) ∧
      ∀ p ∈ ps, ∀ u ∈ p.2 r, I.surrounds ((u : ℝ) : EReal) → rec.t ≤ u) ∧
    (HittableList.hit ⟨ps.map Prod.fst⟩ r I = none →
      ∀ p ∈ ps, ∀ u ∈ p.2 r, ¬ I.surrounds ((u : ℝ) : EReal)) := by
  have h0 : ScanInv r I [] (I.max, none) := Or.inl ⟨rfl, by simp⟩
  have h := scanGo r I ps [] (I.max, none) hp h0
  rw [List.nil_append] at h
  have hdef : HittableList.hit ⟨ps.map Prod.fst⟩ r I =
      ((ps.map Prod.fst).foldl (hitStep r I.min) (I.max, none)).2 := rfl
  constructor
  · intro rec hrec
    rw [hdef] at hrec
    rcases h with ⟨hacc, _⟩ | ⟨rec', hacc, hsur, hmem, hmin⟩
    · rw [hacc] at hrec
      exact absurd hrec (by simp)
    · rw [hacc] at hrec
      have : rec' = rec := Option.some.inj hrec
      subst this
      exact ⟨hsur, hmem, hmin⟩
  · intro hnone
    rw [hdef] at hnone
    rcases h with ⟨_, hall⟩ | ⟨rec', hacc, _, _, _⟩
    · exact hall
    · rw [hacc] at hnone
      exact absurd hnone (by simp)

/-! ## Claim C10: exact ties are won by the earlier-inserted member -/

/-- C10: when two members of a two-element list both hit a ray at exactly
the same `t` strictly inside the interval (and neither hits earlier),
`HittableList::hit` returns the record produced by the first (earlier
inserted) member: after the first hit narrows `closest_so_far` to `t`, the
strict upper bound of `Interval::surrounds` rejects the second member's
equal-`t` hit. -/
theorem hittable_list_hit_tie (pA pB : HittableModel) (r : Ray)
    (I : Interval EReal) (t : ℝ)
    (hA : ProperHit pA.1 pA.2) (hB : ProperHit pB.1 pB.2)
    (htA : t ∈ pA.2 r) (htB : t ∈ pB.2 r)
    (hs : I.surrounds ((t : ℝ) : EReal))
    (hminA : ∀ u ∈ pA.2 r, I.surrounds ((u : ℝ) : EReal) → t ≤ u)
    (hminB : ∀ u ∈ pB.2 r, I.surrounds ((u : ℝ) : EReal) → t ≤ u) :
    ∃ rec, pA.1 r ⟨I.min, I.max⟩ = some rec ∧ rec.t = t ∧
      HittableList.hit ⟨[pA.1, pB.1]⟩ r I = some rec := by
  obtain ⟨hsomeA, hnoneA⟩ := hA r ⟨I.min, I.max⟩
  rcases hcallA : pA.1 r ⟨I.min, I.max⟩ with _ | recA
  · exact absurd hs (hnoneA hcallA t htA)
  · obtain ⟨hmemA, hsurA, hminCallA⟩ := hsomeA recA hcallA
    have ht_le : t ≤ recA.t := hminA recA.t hmemA hsurA
    have hle_t : recA.t ≤ t := hminCallA t htA hs
    have heq : recA.t = t := le_antisymm hle_t ht_le
    refine ⟨recA, rfl, heq, ?_⟩
    have h1 : hitStep r I.min (I.max, none) pA.1 =
        (((recA.t : ℝ) : EReal), some recA) := by
      simp [hitStep, hcallA]
    obtain ⟨hsomeB, hnoneB⟩ := hB r ⟨I.min, ((recA.t : ℝ) : EReal)⟩
    rcases hcallB : pB.1 r ⟨I.min, ((recA.t : ℝ) : EReal)⟩ with _ | recB
    · show (hitStep r I.min (hitStep r I.min (I.max, none) pA.1) pB.1).2 =
        some recA
      rw [h1]
      simp [hitStep, hcallB]
    · obtain ⟨hmemB, hsurB, _⟩ := hsomeB recB hcallB
      rw [Interval.surrounds_def] at hsurB
      have hBsur : I.surrounds ((recB.t : ℝ) : EReal) := by
        rw [Interval.surrounds_def]
        refine ⟨hsurB.1, lt_trans hsurB.2 ?_⟩
        rw [heq]
        exact (Interval.surrounds_def I _ |>.mp hs).2
      have hge := hminB recB.t hmemB hBsur
      have hlt : recB.t < t := by
        have h2 := hsurB.2
        rw [heq] at h2
        exact EReal.coe_lt_coe_iff.mp h2
      linarith

/-- A concrete hittable for the witnesses: it intersects every ray exactly
at parametric distance 1 and reports that hit whenever 1 is strictly inside
the query interval. -/
def hitAt1 : HitFun := fun r I =>
  if I.surrounds ((1 : ℝ) : EReal) then
    some ⟨r.at 1, ⟨0, 0, 1⟩, none, 1, true⟩
  else none

/-- The hit set of `hitAt1`. -/
def setAt1 : Ray → Set ℝ := fun _ => {1}

theorem hitAt1_proper : ProperHit hitAt1 setAt1 := by
  intro r I
  constructor
  · intro rec hrec
    unfold hitAt1 at hrec
    by_cases h : I.surrounds ((1 : ℝ) : EReal)
    · rw [if_pos h] at hrec
      have hrec' : (⟨r.at 1, ⟨0, 0, 1⟩, none, 1, true⟩ : HitRecord) = rec :=
        Option.some.inj hrec
      subst hrec'
      refine ⟨rfl, h, ?_⟩
      intro u hu _
      have hu1 : u = 1 := hu
      rw [hu1]
    · rw [if_neg h] at hrec
      exact absurd hrec (by simp)
  · intro hrec u hu
    unfold hitAt1 at hrec
    by_cases h : I.surrounds ((1 : ℝ) : EReal)
    · rw [if_pos h] at hrec
      exact absurd hrec (by simp)
    · have hu1 : u = 1 := hu
      rw [hu1]
      exact h

/-- Witness for C1: a one-member list whose member is a correct hittable
hitting at `t = 1`, queried on the interval `(0.5, +∞)`. -/
theorem hittable_list_hit_nearest_witness :
    (∀ p ∈ [((hitAt1, setAt1) : HittableModel)], ProperHit p.1 p.2) ∧
    ((∀ rec, HittableList.hit ⟨[((hitAt1, setAt1) : HittableModel)].map Prod.fst⟩
        ⟨0, ⟨0, 0, -1⟩⟩ ⟨((0.5 : ℝ) : EReal), ⊤⟩ = some rec →
      (⟨((0.5 : ℝ) : EReal), ⊤⟩ : Interval EReal).surrounds ((rec.t : ℝ) : EReal) ∧
      (∃ p ∈ [((hitAt1, setAt1) : HittableModel)], rec.t ∈ p.2 ⟨0, ⟨0, 0, -1⟩⟩) ∧
      ∀ p ∈ [((hitAt1, setAt1) : HittableModel)], ∀ u ∈ p.2 ⟨0, ⟨0, 0, -1⟩⟩,
        (⟨((0.5 : ℝ) : EReal), ⊤⟩ : Interval EReal).surrounds ((u : ℝ) : EReal) →
          rec.t ≤ u) ∧
     (HittableList.hit ⟨[((hitAt1, setAt1) : HittableModel)].map Prod.fst⟩
        ⟨0, ⟨0, 0, -1⟩⟩ ⟨((0.5 : ℝ) : EReal), ⊤⟩ = none →
      ∀ p ∈ [((hitAt1, setAt1) : HittableModel)], ∀ u ∈ p.2 ⟨0, ⟨0, 0, -1⟩⟩,
        ¬ (⟨((0.5 : ℝ) : EReal), ⊤⟩ : Interval EReal).surrounds ((u : ℝ) : EReal))) := by
  have hprop : ∀ p ∈ [((hitAt1, setAt1) : HittableModel)], ProperHit p.1 p.2 := by
    intro p hp
    rw [List.mem_singleton] at hp
    subst hp
    exact hitAt1_proper
  exact ⟨hprop, hittable_list_hit_nearest [(hitAt1, setAt1)] ⟨0, ⟨0, 0, -1⟩⟩
    ⟨((0.5 : ℝ) : EReal), ⊤⟩ hprop⟩

/-- Witness for C10: two copies of the same correct hittable tie at
`t = 1`; the scan returns the first member's record. -/
theorem hittable_list_hit_tie_witness :
    ProperHit hitAt1 setAt1 ∧ ((1 : ℝ) ∈ setAt1 ⟨0, ⟨0, 0, -1⟩⟩) ∧
    (⟨((0.5 : ℝ) : EReal), ⊤⟩ : Interval EReal).surrounds (((1 : ℝ) : ℝ) : EReal) ∧
    (∃ rec, hitAt1 ⟨0, ⟨0, 0, -1⟩⟩ ⟨((0.5 : ℝ) : EReal), ⊤⟩ = some rec ∧
      rec.t = 1 ∧
      HittableList.hit ⟨[hitAt1, hitAt1]⟩ ⟨0, ⟨0, 0, -1⟩⟩
        ⟨((0.5 : ℝ) : EReal), ⊤⟩ = some rec) := by
  have hsurr : (⟨((0.5 : ℝ) : EReal), ⊤⟩ : Interval EReal).surrounds
      (((1 : ℝ) : ℝ) : EReal) :=
    ⟨EReal.coe_lt_coe_iff.mpr (by norm_num), EReal.coe_lt_top 1⟩
  have hmin : ∀ u ∈ setAt1 ⟨0, ⟨0, 0, -1⟩⟩,
      (⟨((0.5 : ℝ) : EReal), ⊤⟩ : Interval EReal).surrounds ((u : ℝ) : EReal) →
        (1 : ℝ) ≤ u := by
    intro u hu _
    have hu1 : u = 1 := hu
    rw [hu1]
  exact ⟨hitAt1_proper, rfl, hsurr,
    hittable_list_hit_tie (hitAt1, setAt1) (hitAt1, setAt1) ⟨0, ⟨0, 0, -1⟩⟩
      ⟨((0.5 : ℝ) : EReal), ⊤⟩ 1 hitAt1_proper hitAt1_proper rfl rfl hsurr hmin hmin⟩

/-! ## Claim C4: set_face_normal orients the normal against the ray -/

/-- C4: after `HitRecord::set_face_normal(r, outward_normal)` with a
unit-length outward normal, `dot(r.direction, record.normal) <= 0` holds;
`front_face` is true and the normal is kept exactly when
`dot(r.direction, outward_normal) < 0`, and otherwise `front_face` is false
and the normal is negated. -/
theorem set_face_normal_spec (rec : HitRecord) (r : Ray) (outward_normal : Vec3)
    (hn : outward_normal.length = 1) :
    r.direction.dot ((rec.set_face_normal r outward_normal).normal) ≤ 0 ∧
    ((rec.set_face_normal r outward_normal).front_face = true ↔
      r.direction.dot outward_normal < 0) ∧
    (r.direction.dot outward_normal < 0 →
      (rec.set_face_normal r outward_normal).normal = outward_normal) ∧
    (¬ r.direction.dot outward_normal < 0 →
      (rec.set_face_normal r outward_normal).front_face = false ∧
      (rec.set_face_normal r outward_normal).normal = -outward_normal) := by
  by_cases h : r.direction.dot outward_normal < 0
  · simp [HitRecord.set_face_normal, h, le_of_lt h]
  · have h0 : (0 : ℝ) ≤ r.direction.dot outward_normal := not_lt.mp h
    have hrw : rec.set_face_normal r outward_normal =
        { rec with front_face := false, normal := -outward_normal } := by
      simp [HitRecord.set_face_normal, h]
    rw [hrw]
    refine ⟨?_, by simp [h], fun hc => absurd hc h, fun _ => ⟨rfl, rfl⟩⟩
    show r.direction.dot (-outward_normal) ≤ 0
    rw [Vec3.dot_neg_right]
    linarith

/-- Witness for C4: a concrete ray along `-z` against the outward normal
`+z`, which has unit length. -/
theorem set_face_normal_spec_witness :
    (⟨0, 0, 1⟩ : Vec3).length = 1 ∧
    (Ray.direction ⟨0, ⟨0, 0, -1⟩⟩).dot
      ((HitRecord.set_face_normal ⟨0, 0, none, 0, false⟩ ⟨0, ⟨0, 0, -1⟩⟩
        ⟨0, 0, 1⟩).normal) ≤ 0 := by
  have hn : (⟨0, 0, 1⟩ : Vec3).length = 1 := by
    simp [Vec3.length, Vec3.length_squared]
  exact ⟨hn, (set_face_normal_spec ⟨0, 0, none, 0, false⟩ ⟨0, ⟨0, 0, -1⟩⟩
    ⟨0, 0, 1⟩ hn).1⟩

/-! ## Claim C5: Metal::new and the fuzz range -/

/-- C5 is contradicted by the code: `Metal::new` clamps the fuzz only from
above (`if f < 1.0 { f } else { 1.0 }`), so a negative argument is stored
unchanged, outside `[0, 1]`; the constructor doc comment in the source
states the fuzz is clamped to `[0, 1]`.  At `f = -1/2` the stored fuzz is
`-1/2 < 0`. -/
theorem metal_new_negative_fuzz :
    (Metal.new ⟨0.8, 0.8, 0.8⟩ (-(1 / 2))).fuzz = -(1 / 2) ∧
    (Metal.new ⟨0.8, 0.8, 0.8⟩ (-(1 / 2))).fuzz < 0 ∧
    (Metal.new ⟨0.8, 0.8, 0.8⟩ (2 : ℝ)).fuzz = 1 := by
  refine ⟨?_, ?_, ?_⟩ <;> norm_num [Metal.new]

/-! ## Claim C9: Dielectric::scatter -/

/-- The direction `Dielectric::scatter` picks once the refractive-index
ratio is fixed (src/material.rs lines 191-198): reflect on total internal
reflection or when the Schlick reflectance exceeds the uniform draw,
refract otherwise.  Stated as a function of the ratio so the claim theorem
can name which ratio the code feeds it. -/
def Dielectric.scatterDirection (ri : ℝ) (r_in : Ray) (rec : HitRecord)
    (u : ℝ) : Vec3 :=
  let unit_direction := r_in.direction.unit_vector
  let cos_theta := min (-(unit_direction.dot rec.normal)) 1
  let sin_theta := Real.sqrt (1 - cos_theta * cos_theta)
  if ri * sin_theta > 1 ∨ Dielectric.reflectance cos_theta ri > u
  then Vec3.reflect unit_direction rec.normal
  else Vec3.refract unit_direction rec.normal ri

/-- C9: for every incoming ray, hit record and random draw,
`Dielectric::scatter` returns true (never absorbs), sets the attenuation to
exactly `(1,1,1)`, scatters from the hit point, and uses the ratio
`1/refraction_index` when `front_face` is true and `refraction_index` when
it is false. -/
theorem dielectric_scatter_spec (d : Dielectric) (rnd : Rand) (r_in : Ray)
    (rec : HitRecord) :
    ((Material.scatter (.dielectric d) rnd r_in rec).isSome = true) ∧
    (∀ att sc, Material.scatter (.dielectric d) rnd r_in rec = some (att, sc) →
      att = (⟨1, 1, 1⟩ : Color) ∧ sc.origin = rec.p) ∧
    (rec.front_face = true →
      Material.scatter (.dielectric d) rnd r_in rec =
        some ((⟨1, 1, 1⟩ : Color),
          ⟨rec.p, Dielectric.scatterDirection (1 / d.refraction_index) r_in rec
            rnd.double⟩)) ∧
    (rec.front_face = false →
      Material.scatter (.dielectric d) rnd r_in rec =
        some ((⟨1, 1, 1⟩ : Color),
          ⟨rec.p, Dielectric.scatterDirection d.refraction_index r_in rec
            rnd.double⟩)) := by
  cases hf : rec.front_face <;>
    simp [Material.scatter, Dielectric.scatterDirection, hf]

/-- Witness for C9: a concrete glass sphere hit record with
`front_face = true`; the scatter keeps attenuation `(1,1,1)` and uses the
entering ratio `1/1.5`. -/
theorem dielectric_scatter_spec_witness :
    ((Material.scatter (.dielectric ⟨3 / 2⟩) ⟨⟨1, 0, 0⟩, 0⟩ ⟨0, ⟨0, 0, -1⟩⟩
        ⟨0, ⟨0, 0, 1⟩, none, 0, true⟩).isSome = true) ∧
    Material.scatter (.dielectric ⟨3 / 2⟩) ⟨⟨1, 0, 0⟩, 0⟩ ⟨0, ⟨0, 0, -1⟩⟩
        ⟨0, ⟨0, 0, 1⟩, none, 0, true⟩ =
      some ((⟨1, 1, 1⟩ : Color),
        ⟨(0 : Vec3), Dielectric.scatterDirection (1 / (3 / 2)) ⟨0, ⟨0, 0, -1⟩⟩
          ⟨0, ⟨0, 0, 1⟩, none, 0, true⟩ 0⟩) :=
  ⟨(dielectric_scatter_spec ⟨3 / 2⟩ ⟨⟨1, 0, 0⟩, 0⟩ ⟨0, ⟨0, 0, -1⟩⟩
      ⟨0, ⟨0, 0, 1⟩, none, 0, true⟩).1,
   (dielectric_scatter_spec ⟨3 / 2⟩ ⟨⟨1, 0, 0⟩, 0⟩ ⟨0, ⟨0, 0, -1⟩⟩
      ⟨0, ⟨0, 0, 1⟩, none, 0, true⟩).2.2.1 rfl⟩

/-! ## Claim C7: write_color -/

/-- The clamp to `[0.000, 0.999]` used by write_color agrees with the
specification form `max 0 (min y 0.999)`. -/
theorem clamp_unit_spec (y : ℝ) :
    Interval.clamp ⟨0.000, 0.999⟩ y = max 0 (min y 0.999) := by
  have h0 : (0.000 : ℝ) = 0 := by norm_num
  simp only [Interval.clamp, h0]
  rw [max_def, min_def]
  split_ifs <;> first | rfl | linarith

/-- One quantized component: the byte is the floor of 256 times the clamped
gamma value, the gamma transform maps non-positive inputs to exactly `0` and
positive inputs to their square root, and the resulting integer lies in
`[0, 255]`. -/
theorem colorByte_spec (x : ℝ) :
    colorByte x = ⌊(256 : ℝ) * max 0 (min (linear_to_gamma x) 0.999)⌋ ∧
    (x ≤ 0 → linear_to_gamma x = 0) ∧
    (0 < x → linear_to_gamma x = Real.sqrt x) ∧
    0 ≤ colorByte x ∧ colorByte x ≤ 255 := by
  have hdef : colorByte x = ⌊(256 : ℝ) * max 0 (min (linear_to_gamma x) 0.999)⌋ := by
    simp only [colorByte, clamp_unit_spec]
  have hlo : (0 : ℝ) ≤ max 0 (min (linear_to_gamma x) 0.999) := le_max_left _ _
  have hhi : max 0 (min (linear_to_gamma x) 0.999) ≤ 0.999 :=
    max_le (by norm_num) (min_le_right _ _)
  refine ⟨hdef, ?_, ?_, ?_, ?_⟩
  · intro hx
    simp [linear_to_gamma, not_lt.mpr hx]
  · intro hx
    simp [linear_to_gamma, hx]
  · rw [hdef]
    exact Int.floor_nonneg.mpr (by positivity)
  · rw [hdef]
    have : (256 : ℝ) * max 0 (min (linear_to_gamma x) 0.999) < 256 := by nlinarith
    have hlt : ⌊(256 : ℝ) * max 0 (min (linear_to_gamma x) 0.999)⌋ < (256 : ℤ) :=
      Int.floor_lt.mpr (by exact_mod_cast this)
    omega

/-- C7: write_color applies the gamma-2 transform componentwise (square
root; non-positive inputs become exactly 0), clamps to `[0.000, 0.999]`,
multiplies by 256 and truncates to an integer in `[0, 255]`, and emits the
three integers space-separated followed by a newline. -/
theorem write_color_spec (c : Color) :
    write_color c = toString (colorByte c.x) ++ " " ++ toString (colorByte c.y)
      ++ " " ++ toString (colorByte c.z) ++ "\n" ∧
    (colorByte c.x = ⌊(256 : ℝ) * max 0 (min (linear_to_gamma c.x) 0.999)⌋ ∧
      (c.x ≤ 0 → linear_to_gamma c.x = 0) ∧
      (0 < c.x → linear_to_gamma c.x = Real.sqrt c.x) ∧
      0 ≤ colorByte c.x ∧ colorByte c.x ≤ 255) ∧
    (colorByte c.y = ⌊(256 : ℝ) * max 0 (min (linear_to_gamma c.y) 0.999)⌋ ∧
      (c.y ≤ 0 → linear_to_gamma c.y = 0) ∧
      (0 < c.y → linear_to_gamma c.y = Real.sqrt c.y) ∧
      0 ≤ colorByte c.y ∧ colorByte c.y ≤ 255) ∧
    (colorByte c.z = ⌊(256 : ℝ) * max 0 (min (linear_to_gamma c.z) 0.999)⌋ ∧
      (c.z ≤ 0 → linear_to_gamma c.z = 0) ∧
      (0 < c.z → linear_to_gamma c.z = Real.sqrt c.z) ∧
      0 ≤ colorByte c.z ∧ colorByte c.z ≤ 255) :=
  ⟨rfl, colorByte_spec c.x, colorByte_spec c.y, colorByte_spec c.z⟩

/-- Witness for C7: the color `(1, 0, 1)`; its over-unit components clamp
to the byte 255 and the zero component to the byte 0, and the emitted line
is exactly `255 0 255` followed by a newline. -/
theorem write_color_spec_witness : write_color ⟨1, 0, 1⟩ = "255 0 255\n" := by
  have h := (write_color_spec ⟨1, 0, 1⟩).1
  have hb1 : colorByte (1 : ℝ) = 255 := by
    have hc := colorByte_spec (1 : ℝ)
    rw [hc.1, hc.2.2.1 (by norm_num), Real.sqrt_one]
    rw [min_eq_right (by norm_num : (0.999 : ℝ) ≤ 1),
      max_eq_right (by norm_num : (0 : ℝ) ≤ 0.999)]
    rw [Int.floor_eq_iff]
    constructor <;> push_cast <;> norm_num
  have hb0 : colorByte (0 : ℝ) = 0 := by
    have hc := colorByte_spec (0 : ℝ)
    rw [hc.1, hc.2.1 (by norm_num)]
    rw [min_eq_left (by norm_num : (0 : ℝ) ≤ 0.999), max_self, mul_zero]
    exact Int.floor_zero
  rw [h]
  show toString (colorByte (1 : ℝ)) ++ " " ++ toString (colorByte (0 : ℝ))
    ++ " " ++ toString (colorByte (1 : ℝ)) ++ "\n" = _
  rw [hb1, hb0]
  rfl

/-! ## Claim C2: Sphere::hit -/

theorem sphere_root_quadratic (s : Sphere) (r : Ray) (ha : s.aCoef r ≠ 0)
    (hd : 0 ≤ s.disc r) (t : ℝ) (ht : t = s.root1 r ∨ t = s.root2 r) :
    s.aCoef r * t ^ 2 - 2 * s.hCoef r * t + s.cCoef r = 0 := by
  have hq : Real.sqrt (s.disc r) ^ 2 =
      s.hCoef r * s.hCoef r - s.aCoef r * s.cCoef r := by
    rw [Real.sq_sqrt hd]
    rfl
  rcases ht with rfl | rfl
  · unfold Sphere.root1
    field_simp
    linear_combination s.aCoef r ^ 2 * hq
  · unfold Sphere.root2
    field_simp
    linear_combination s.aCoef r ^ 2 * hq

theorem at_sub_center_length_squared (s : Sphere) (r : Ray) (t : ℝ) :
    (r.at t - s.center).length_squared =
      s.aCoef r * t ^ 2 - 2 * s.hCoef r * t + s.cCoef r + s.radius * s.radius := by
  unfold Ray.at Sphere.aCoef Sphere.hCoef Sphere.cCoef Vec3.length_squared Vec3.dot
  simp
  ring

theorem sphere_root_on_sphere (s : Sphere) (r : Ray) (ha : s.aCoef r ≠ 0)
    (hd : 0 ≤ s.disc r) (t : ℝ) (ht : t = s.root1 r ∨ t = s.root2 r) :
    (r.at t - s.center).length = |s.radius| := by
  have hqu := sphere_root_quadratic s r ha hd t ht
  have hsq : (r.at t - s.center).length_squared = s.radius * s.radius := by
    rw [at_sub_center_length_squared]
    linarith
  unfold Vec3.length
  rw [hsq, show s.radius * s.radius = s.radius ^ 2 by ring, Real.sqrt_sq_eq_abs]

/-- A sphere with negative radius, as the hollow-interior trick of the
original book permits: Sphere::new accepts any real radius. -/
def cexSphere : Sphere := ⟨⟨0, 0, -2⟩, -1, .lambertian ⟨0, 0, 0⟩⟩

/-- A ray from the origin toward the counterexample sphere. -/
def cexRay : Ray := ⟨0, ⟨0, 0, -1⟩⟩

/-- Counterexample to C2 as stated: for the sphere of radius `-1` centered
at `(0,0,-2)` and the ray from the origin toward `(0,0,-1)`, Sphere::hit
returns a record (at `t = 1`, point `(0,0,-1)`), but the distance from the
hit point to the center is `1`, not the radius `-1`: the claimed identity
`|hit.point - center| = radius` fails for negative radii. -/
theorem sphere_hit_radius_cex :
    cexSphere.radius = -1 ∧
    Sphere.hit cexSphere cexRay ⟨((0.001 : ℝ) : EReal), ⊤⟩ =
      some ⟨⟨0, 0, -1⟩, ⟨0, 0, 1⟩, some (.lambertian ⟨0, 0, 0⟩), 1, false⟩ ∧
    ((⟨0, 0, -1⟩ : Vec3) - cexSphere.center).length = 1 ∧
    ((⟨0, 0, -1⟩ : Vec3) - cexSphere.center).length ≠ cexSphere.radius := by
  have hd : cexSphere.disc cexRay = 1 := by
    unfold Sphere.disc Sphere.hCoef Sphere.aCoef Sphere.cCoef cexSphere cexRay
      Vec3.dot Vec3.length_squared
    norm_num
  have hh : cexSphere.hCoef cexRay = 2 := by
    unfold Sphere.hCoef cexSphere cexRay Vec3.dot
    norm_num
  have haa : cexSphere.aCoef cexRay = 1 := by
    unfold Sphere.aCoef cexRay Vec3.length_squared
    norm_num
  have hr1 : cexSphere.root1 cexRay = 1 := by
    unfold Sphere.root1
    rw [hd, hh, haa, Real.sqrt_one]
    norm_num
  have hsur : (⟨((0.001 : ℝ) : EReal), ⊤⟩ : Interval EReal).surrounds
      ((1 : ℝ) : EReal) :=
    ⟨EReal.coe_lt_coe_iff.mpr (by norm_num), EReal.coe_lt_top 1⟩
  have hat : cexRay.at 1 = ⟨0, 0, -1⟩ := by
    unfold Ray.at cexRay
    simp
  have hout : (cexRay.at 1 - cexSphere.center) / cexSphere.radius
      = ⟨0, 0, -1⟩ := by
    rw [hat]
    unfold cexSphere
    simp
    norm_num
  have hrec : cexSphere.mkHitRecord cexRay 1 =
      ⟨⟨0, 0, -1⟩, ⟨0, 0, 1⟩, some (.lambertian ⟨0, 0, 0⟩), 1, false⟩ := by
    unfold Sphere.mkHitRecord HitRecord.set_face_normal
    rw [hout]
    have hdot : (cexRay.direction).dot ⟨0, 0, -1⟩ = 1 := by
      unfold cexRay Vec3.dot
      norm_num
    rw [hdot, decide_eq_false (by norm_num : ¬ ((1 : ℝ) < 0))]
    rw [hat]
    simp [cexSphere]
  have hlen : ((⟨0, 0, -1⟩ : Vec3) - cexSphere.center).length = 1 := by
    unfold cexSphere Vec3.length Vec3.length_squared
    simp
    norm_num
  refine ⟨rfl, ?_, hlen, by rw [hlen]; unfold cexSphere; norm_num⟩
  unfold Sphere.hit
  rw [hd, hr1]
  rw [if_neg (by norm_num), if_pos hsur, hrec]

/-- C2 as amended: the claim as stated fails for spheres with negative
radius (see the counterexample), whose surface points lie at distance
`|radius|` from the center.  For every ray with nonzero direction:
Sphere::hit misses when the discriminant is negative; it misses when
neither root is strictly inside the interval; and a returned record takes
the smaller root when that is strictly inside and the larger root only as
fallback, and satisfies `ray_t.surrounds(t)`, `hit.point = ray.at(t)` and
`|hit.point - center| = |radius|`. -/
theorem sphere_hit_spec (s : Sphere) (r : Ray) (I : Interval EReal)
    (ha : r.direction.length_squared ≠ 0) :
    (s.disc r < 0 → s.hit r I = none) ∧
    (¬ I.surrounds ((s.root1 r : ℝ) : EReal) →
      ¬ I.surrounds ((s.root2 r : ℝ) : EReal) → s.hit r I = none) ∧
    (∀ rec, s.hit r I = some rec →
      ((I.surrounds ((s.root1 r : ℝ) : EReal) ∧ rec.t = s.root1 r) ∨
        (¬ I.surrounds ((s.root1 r : ℝ) : EReal) ∧
          I.surrounds ((s.root2 r : ℝ) : EReal) ∧ rec.t = s.root2 r)) ∧
      I.surrounds ((rec.t : ℝ) : EReal) ∧ rec.p = r.at rec.t ∧
      (rec.p - s.center).length = |s.radius|) := by
  refine ⟨?_, ?_, ?_⟩
  · intro hd
    unfold Sphere.hit
    rw [if_pos hd]
  · intro h1 h2
    unfold Sphere.hit
    by_cases hd : s.disc r < 0
    · rw [if_pos hd]
    · rw [if_neg hd, if_neg h1, if_neg h2]
  · intro rec hrec
    unfold Sphere.hit at hrec
    by_cases hd : s.disc r < 0
    · rw [if_pos hd] at hrec
      exact absurd hrec (by simp)
    · rw [if_neg hd] at hrec
      have hd0 : 0 ≤ s.disc r := not_lt.mp hd
      by_cases h1 : I.surrounds ((s.root1 r : ℝ) : EReal)
      · rw [if_pos h1] at hrec
        have hre : s.mkHitRecord r (s.root1 r) = rec := Option.some.inj hrec
        subst hre
        exact ⟨Or.inl ⟨h1, rfl⟩, h1, rfl,
          sphere_root_on_sphere s r ha hd0 _ (Or.inl rfl)⟩
      · rw [if_neg h1] at hrec
        by_cases h2 : I.surrounds ((s.root2 r : ℝ) : EReal)
        · rw [if_pos h2] at hrec
          have hre : s.mkHitRecord r (s.root2 r) = rec := Option.some.inj hrec
          subst hre
          exact ⟨Or.inr ⟨h1, h2, rfl⟩, h2, rfl,
            sphere_root_on_sphere s r ha hd0 _ (Or.inr rfl)⟩
        · rw [if_neg h2] at hrec
          exact absurd hrec (by simp)

/-- Witness for C2 (amended): the canonical scene of a sphere of radius 0.5
at `(0,0,-1)` and a ray from the origin toward it; the ray direction is
nonzero. -/
theorem sphere_hit_spec_witness :
    ((Ray.direction ⟨0, ⟨0, 0, -1⟩⟩).length_squared ≠ 0) ∧
    ((Sphere.disc ⟨⟨0, 0, -1⟩, 0.5, .lambertian ⟨0.5, 0.5, 0.5⟩⟩ ⟨0, ⟨0, 0, -1⟩⟩ < 0 →
      Sphere.hit ⟨⟨0, 0, -1⟩, 0.5, .lambertian ⟨0.5, 0.5, 0.5⟩⟩ ⟨0, ⟨0, 0, -1⟩⟩
        ⟨((0.001 : ℝ) : EReal), ⊤⟩ = none) ∧
     (¬ (⟨((0.001 : ℝ) : EReal), ⊤⟩ : Interval EReal).surrounds
        ((Sphere.root1 ⟨⟨0, 0, -1⟩, 0.5, .lambertian ⟨0.5, 0.5, 0.5⟩⟩
          ⟨0, ⟨0, 0, -1⟩⟩ : ℝ) : EReal) →
      ¬ (⟨((0.001 : ℝ) : EReal), ⊤⟩ : Interval EReal).surrounds
        ((Sphere.root2 ⟨⟨0, 0, -1⟩, 0.5, .lambertian ⟨0.5, 0.5, 0.5⟩⟩
          ⟨0, ⟨0, 0, -1⟩⟩ : ℝ) : EReal) →
      Sphere.hit ⟨⟨0, 0, -1⟩, 0.5, .lambertian ⟨0.5, 0.5, 0.5⟩⟩ ⟨0, ⟨0, 0, -1⟩⟩
        ⟨((0.001 : ℝ) : EReal), ⊤⟩ = none) ∧
     (∀ rec, Sphere.hit ⟨⟨0, 0, -1⟩, 0.5, .lambertian ⟨0.5, 0.5, 0.5⟩⟩
        ⟨0, ⟨0, 0, -1⟩⟩ ⟨((0.001 : ℝ) : EReal), ⊤⟩ = some rec →
      (((⟨((0.001 : ℝ) : EReal), ⊤⟩ : Interval EReal).surrounds
          ((Sphere.root1 ⟨⟨0, 0, -1⟩, 0.5, .lambertian ⟨0.5, 0.5, 0.5⟩⟩
            ⟨0, ⟨0, 0, -1⟩⟩ : ℝ) : EReal) ∧
        rec.t = Sphere.root1 ⟨⟨0, 0, -1⟩, 0.5, .lambertian ⟨0.5, 0.5, 0.5⟩⟩
          ⟨0, ⟨0, 0, -1⟩⟩) ∨
       (¬ (⟨((0.001 : ℝ) : EReal), ⊤⟩ : Interval EReal).surrounds
          ((Sphere.root1 ⟨⟨0, 0, -1⟩, 0.5, .lambertian ⟨0.5, 0.5, 0.5⟩⟩
            ⟨0, ⟨0, 0, -1⟩⟩ : ℝ) : EReal) ∧
        (⟨((0.001 : ℝ) : EReal), ⊤⟩ : Interval EReal).surrounds
          ((Sphere.root2 ⟨⟨0, 0, -1⟩, 0.5, .lambertian ⟨0.5, 0.5, 0.5⟩⟩
            ⟨0, ⟨0, 0, -1⟩⟩ : ℝ) : EReal) ∧
        rec.t = Sphere.root2 ⟨⟨0, 0, -1⟩, 0.5, .lambertian ⟨0.5, 0.5, 0.5⟩⟩
          ⟨0, ⟨0, 0, -1⟩⟩)) ∧
      (⟨((0.001 : ℝ) : EReal), ⊤⟩ : Interval EReal).surrounds ((rec.t : ℝ) : EReal) ∧
      rec.p = Ray.at ⟨0, ⟨0, 0, -1⟩⟩ rec.t ∧
      (rec.p - (⟨0, 0, -1⟩ : Vec3)).length = |(0.5 : ℝ)|)) := by
  have ha : (Ray.direction ⟨0, ⟨0, 0, -1⟩⟩).length_squared ≠ 0 := by
    show ((⟨0, 0, -1⟩ : Vec3)).length_squared ≠ 0
    norm_num [Vec3.length_squared]
  exact ⟨ha, sphere_hit_spec ⟨⟨0, 0, -1⟩, 0.5, .lambertian ⟨0.5, 0.5, 0.5⟩⟩
    ⟨0, ⟨0, 0, -1⟩⟩ ⟨((0.001 : ℝ) : EReal), ⊤⟩ ha⟩

/-! ## Claim C8: the PPM stream -/

theorem string_join_cons (s : String) (l : List String) :
    String.join (s :: l) = s ++ String.join l := by
  apply String.ext
  simp

theorem foldl_append_eq {α : Type} (g : String → α → String) (f : α → String)
    (hg : ∀ acc x, g acc x = acc ++ f x) :
    ∀ (l : List α) (acc : String), l.foldl g acc = acc ++ String.join (l.map f) := by
  intro l
  induction l with
  | nil =>
    intro acc
    show acc = acc ++ String.join []
    rw [show String.join [] = "" from rfl, String.append_empty]
  | cons x l ih =>
    intro acc
    rw [List.foldl_cons, hg, List.map_cons, ih, string_join_cons,
      String.append_assoc]

/-- The pixel-line stream is the row-major concatenation of one write_color
line per pixel: rows in the order `j = image_height - 1` down to `0`, and
within each row `i = 0` up to `image_width - 1`. -/
theorem renderRows_eq (c : Camera) (world : HitFun)
    (tape : ℕ → ℕ → ℕ → SampleRand) :
    c.renderRows world tape =
      String.join (((List.range c.image_height).reverse).map (fun j =>
        String.join ((List.range c.image_width).map (fun i =>
          write_color (c.pixel_samples_scale * c.pixelColor world tape j i))))) := by
  have hinner : ∀ (out : String) (j : ℕ),
      ((List.range c.image_width).map (fun i => c.pixelColor world tape j i)).foldl
        (fun out2 pixel_color =>
          out2 ++ write_color (c.pixel_samples_scale * pixel_color)) out
      = out ++ String.join ((List.range c.image_width).map (fun i =>
          write_color (c.pixel_samples_scale * c.pixelColor world tape j i))) := by
    intro out j
    rw [foldl_append_eq
      (fun out2 pixel_color =>
        out2 ++ write_color (c.pixel_samples_scale * pixel_color))
      (fun pixel_color => write_color (c.pixel_samples_scale * pixel_color))
      (fun _ _ => rfl), List.map_map]
    rfl
  have houter := foldl_append_eq
    (fun out j =>
      ((List.range c.image_width).map (fun i => c.pixelColor world tape j i)).foldl
        (fun out2 pixel_color =>
          out2 ++ write_color (c.pixel_samples_scale * pixel_color)) out)
    (fun j => String.join ((List.range c.image_width).map (fun i =>
      write_color (c.pixel_samples_scale * c.pixelColor world tape j i))))
    (fun acc j => hinner acc j)
    ((List.range c.image_height).reverse) ""
  rw [String.empty_append] at houter
  exact houter

/-- A 400-pixel-wide 16:9 camera, the classic book configuration. -/
def cexCamera2 : Camera :=
  { Camera.default with image_width := 400, aspect_ratio := 16 / 9 }

/-- The scene used by the stream counterexample: an empty world. -/
def emptyWorld : HitFun := fun _ _ => none

/-- An all-zero random tape. -/
def zeroTape : ℕ → ℕ → ℕ → SampleRand := fun _ _ _ => ⟨0, 0, 0, 0, 0, fun _ => ⟨0, 0⟩⟩

/-- Counterexample to C8 as stated: the header `render` actually prints is
`println!("P3\n {0} {1} \n255", ...)`, whose second line carries a leading
and a trailing space (` 400 225 `), so the stream does not begin with the
claimed bit-exact line `400 225`.  Shown on a 400x16:9 camera rendering an
empty scene. -/
theorem render_header_cex :
    Camera.render cexCamera2 emptyWorld zeroTape =
      ppmHeaderLine 400 225 ++ (cexCamera2.initializeDerived).renderRows emptyWorld zeroTape ∧
    ppmHeaderLine 400 225 = "P3\n 400 225 \n255\n" ∧
    "P3\n 400 225 \n255\n" ≠ "P3\n400 225\n255\n" := by
  refine ⟨?_, by decide, by decide⟩
  have hw : (cexCamera2.initializeDerived).image_width = 400 := rfl
  have hh : (cexCamera2.initializeDerived).image_height = 225 := by
    have hih : (Camera.initializeDerived cexCamera2).image_height =
        if (cexCamera2.image_width : ℝ) / cexCamera2.aspect_ratio < 1 then 1
        else ⌊(cexCamera2.image_width : ℝ) / cexCamera2.aspect_ratio⌋.toNat := rfl
    have hval : ((cexCamera2.image_width : ℝ) / cexCamera2.aspect_ratio) = 225 := by
      unfold cexCamera2 Camera.default
      norm_num
    rw [hih, hval, if_neg (by norm_num)]
    norm_num
    rfl
  show ppmHeaderLine (cexCamera2.initializeDerived).image_width
      (cexCamera2.initializeDerived).image_height ++
      (cexCamera2.initializeDerived).renderRows emptyWorld zeroTape = _
  rw [hw, hh]

/-- C8 as amended: the stream is the header line `P3`, a second line
` <width> <height> ` carrying a leading and a trailing space (unlike the
claimed exact `<width> <height>`), a line `255`, and then one write_color
line per pixel, rows emitted from `j = image_height - 1` down to `0`
(topmost scanline first under the camera's viewport basis) and pixels in
ascending `i` within each row. -/
theorem render_stream_spec (cam : Camera) (world : HitFun)
    (tape : ℕ → ℕ → ℕ → SampleRand) :
    Camera.render cam world tape =
      ppmHeaderLine (cam.initializeDerived).image_width (cam.initializeDerived).image_height ++
      String.join (((List.range (cam.initializeDerived).image_height).reverse).map (fun j =>
        String.join ((List.range (cam.initializeDerived).image_width).map (fun i =>
          write_color ((cam.initializeDerived).pixel_samples_scale *
            Camera.pixelColor (cam.initializeDerived) world tape j i))))) ∧
    ppmHeaderLine (cam.initializeDerived).image_width (cam.initializeDerived).image_height =
      "P3" ++ "\n" ++ " " ++ toString (cam.initializeDerived).image_width ++ " "
        ++ toString (cam.initializeDerived).image_height ++ " " ++ "\n" ++ "255" ++ "\n" ∧
    ((List.range (cam.initializeDerived).image_height).reverse).length =
      (cam.initializeDerived).image_height ∧
    (∀ j : ℕ, ((List.range (cam.initializeDerived).image_width).map (fun i =>
      write_color ((cam.initializeDerived).pixel_samples_scale *
        Camera.pixelColor (cam.initializeDerived) world tape j i))).length =
      (cam.initializeDerived).image_width) := by
  refine ⟨?_, ?_, by simp, fun j => by simp⟩
  · show ppmHeaderLine (cam.initializeDerived).image_width (cam.initializeDerived).image_height ++
        (cam.initializeDerived).renderRows world tape = _
    rw [renderRows_eq]
  · unfold ppmHeaderLine
    apply String.ext
    simp

/-! ## Claim C6: no fail-fast validation at render start -/

/-- A malformed configuration: width 1 at aspect ratio 2 makes the computed
image height 0.5 < 1. -/
def cexCamera : Camera := { Camera.default with image_width := 1, aspect_ratio := 2 }

/-- Counterexample to C6 as stated: `Camera::initialize` (invoked
unconditionally at the start of `Camera::render`) does not reject a
configuration that would produce `image_height < 1`; it silently clamps the
height to 1 and the render proceeds.  There is no validation or failure
path in `initialize` or `render` at all. -/
theorem camera_initialize_no_reject :
    ((cexCamera.image_width : ℝ) / cexCamera.aspect_ratio < 1) ∧
    (Camera.initializeDerived cexCamera).image_height = 1 := by
  have hlt : ((cexCamera.image_width : ℝ) / cexCamera.aspect_ratio < 1) := by
    unfold cexCamera Camera.default
    norm_num
  refine ⟨hlt, ?_⟩
  have hih : (Camera.initializeDerived cexCamera).image_height =
      if (cexCamera.image_width : ℝ) / cexCamera.aspect_ratio < 1 then 1
      else ⌊(cexCamera.image_width : ℝ) / cexCamera.aspect_ratio⌋.toNat := rfl
  rw [hih, if_pos hlt]

/-- C6 as amended: render start never rejects a malformed configuration.
`Camera::initialize` always completes: a configuration that would produce
`image_height < 1` is silently clamped to `image_height = 1`, and in every
case the derived image height is at least 1 (a zero look-direction likewise
proceeds into degenerate derived state rather than failing). -/
theorem camera_initialize_clamps (cam : Camera) :
    1 ≤ (Camera.initializeDerived cam).image_height ∧
    ((cam.image_width : ℝ) / cam.aspect_ratio < 1 →
      (Camera.initializeDerived cam).image_height = 1) := by
  have hih : (Camera.initializeDerived cam).image_height =
      if (cam.image_width : ℝ) / cam.aspect_ratio < 1 then 1
      else ⌊(cam.image_width : ℝ) / cam.aspect_ratio⌋.toNat := rfl
  constructor
  · rw [hih]
    by_cases h : (cam.image_width : ℝ) / cam.aspect_ratio < 1
    · rw [if_pos h]
    · rw [if_neg h]
      have h1 : (1 : ℝ) ≤ (cam.image_width : ℝ) / cam.aspect_ratio := not_lt.mp h
      have h2 : (1 : ℤ) ≤ ⌊(cam.image_width : ℝ) / cam.aspect_ratio⌋ :=
        Int.le_floor.mpr (by exact_mod_cast h1)
      omega
  · intro h
    rw [hih, if_pos h]

/-- Witness for C6 (amended): at the malformed configuration the clamp
fires and initialization completes with image height exactly 1. -/
theorem camera_initialize_clamps_witness :
    1 ≤ (Camera.initializeDerived cexCamera).image_height ∧
    (Camera.initializeDerived cexCamera).image_height = 1 := by
  have h := camera_initialize_clamps cexCamera
  exact ⟨h.1, h.2 (by unfold cexCamera Camera.default; norm_num)⟩

/-! ## Claim C3: Camera::ray_color -/

/-- C3: ray_color returns black at depth 0; otherwise it queries the scene
on the open interval `(0.001, +∞)`; on a miss it returns the vertical
gradient `(1-a)*(1,1,1) + a*(0.5,0.7,1.0)` with
`a = (unit_direction.y + 1)/2`; on a hit it returns black when the material
absorbs and the attenuation times the recursive color of the scattered ray
at depth-1 when it scatters. -/
theorem ray_color_spec (world : HitFun) (rtape : ℕ → Rand) (r : Ray) (d : ℕ) :
    (Camera.rayColor world rtape r 0 = (⟨0, 0, 0⟩ : Color)) ∧
    (world r ⟨((0.001 : ℝ) : EReal), ⊤⟩ = none →
      Camera.rayColor world rtape r (d + 1) =
        (1 - (r.direction.unit_vector.y + 1) / 2) * (⟨1, 1, 1⟩ : Color)
          + ((r.direction.unit_vector.y + 1) / 2) * (⟨0.5, 0.7, 1⟩ : Color)) ∧
    (∀ rec m, world r ⟨((0.001 : ℝ) : EReal), ⊤⟩ = some rec →
      rec.mat = some m → m.scatter (rtape d) r rec = none →
      Camera.rayColor world rtape r (d + 1) = (⟨0, 0, 0⟩ : Color)) ∧
    (∀ rec m attenuation scattered,
      world r ⟨((0.001 : ℝ) : EReal), ⊤⟩ = some rec → rec.mat = some m →
      m.scatter (rtape d) r rec = some (attenuation, scattered) →
      Camera.rayColor world rtape r (d + 1) =
        attenuation * Camera.rayColor world rtape scattered d) := by
  refine ⟨rfl, ?_, ?_, ?_⟩
  · intro hmiss
    show (match world r ⟨((0.001 : ℝ) : EReal), ⊤⟩ with
      | some rec =>
        match rec.mat with
        | some m =>
          match m.scatter (rtape d) r rec with
          | some (attenuation, scattered) =>
              attenuation * Camera.rayColor world rtape scattered d
          | none => 0
        | none => 0
      | none =>
        let unit_direction := r.direction.unit_vector
        let a := (unit_direction.y + 1) * 0.5
        (1 - a) * (⟨1, 1, 1⟩ : Color) + a * (⟨0.5, 0.7, 1⟩ : Color)) = _
    rw [hmiss]
    show (1 - (r.direction.unit_vector.y + 1) * 0.5) * (⟨1, 1, 1⟩ : Color)
      + ((r.direction.unit_vector.y + 1) * 0.5) * (⟨0.5, 0.7, 1⟩ : Color) = _
    rw [show (r.direction.unit_vector.y + 1) * 0.5
      = (r.direction.unit_vector.y + 1) / 2 by ring]
  · intro rec m hhit hmat habsorb
    show (match world r ⟨((0.001 : ℝ) : EReal), ⊤⟩ with
      | some rec =>
        match rec.mat with
        | some m =>
          match m.scatter (rtape d) r rec with
          | some (attenuation, scattered) =>
              attenuation * Camera.rayColor world rtape scattered d
          | none => 0
        | none => 0
      | none =>
        let unit_direction := r.direction.unit_vector
        let a := (unit_direction.y + 1) * 0.5
        (1 - a) * (⟨1, 1, 1⟩ : Color) + a * (⟨0.5, 0.7, 1⟩ : Color)) = _
    simp only [hhit, hmat, habsorb]
    rfl
  · intro rec m attenuation scattered hhit hmat hscatter
    show (match world r ⟨((0.001 : ℝ) : EReal), ⊤⟩ with
      | some rec =>
        match rec.mat with
        | some m =>
          match m.scatter (rtape d) r rec with
          | some (attenuation, scattered) =>
              attenuation * Camera.rayColor world rtape scattered d
          | none => 0
        | none => 0
      | none =>
        let unit_direction := r.direction.unit_vector
        let a := (unit_direction.y + 1) * 0.5
        (1 - a) * (⟨1, 1, 1⟩ : Color) + a * (⟨0.5, 0.7, 1⟩ : Color)) = _
    simp only [hhit, hmat, hscatter]

/-- Witness for C3: against an empty scene (the hit function constantly
`none`), a depth-1 ray pointing straight up evaluates to the sky color of
the gradient. -/
theorem ray_color_spec_witness :
    ((fun (_ : Ray) (_ : Interval EReal) => (none : Option HitRecord))
      ⟨0, ⟨0, 1, 0⟩⟩ ⟨((0.001 : ℝ) : EReal), ⊤⟩ = none) ∧
    Camera.rayColor (fun _ _ => none) (fun _ => ⟨0, 0⟩) ⟨0, ⟨0, 1, 0⟩⟩ 1 =
      (⟨0.5, 0.7, 1⟩ : Color) := by
  refine ⟨rfl, ?_⟩
  have h := (ray_color_spec (fun _ _ => none) (fun _ => ⟨0, 0⟩)
    ⟨0, ⟨0, 1, 0⟩⟩ 0).2.1 rfl
  rw [h]
  have hu : (Ray.direction ⟨0, ⟨0, 1, 0⟩⟩).unit_vector = ⟨0, 1, 0⟩ := by
    show (⟨0, 1, 0⟩ : Vec3).unit_vector = ⟨0, 1, 0⟩
    simp [Vec3.unit_vector, Vec3.length, Vec3.length_squared]
  rw [hu]
  norm_num

end

end Raytracing
